import Mathlib

/-!
Shallow embedding of the ledger anchoring and indexing engine of
`packages/ethereum-storage/src/lib/smart-contract-manager.ts`
(class `SmartContractManager`), together with theorems checking the
natural-language specification against it.

The external world seen by the manager (the web3 provider, the deployed
`requestHashStorage` contract log, and the `EthereumBlocks` helper) is
modelled as a `Provider` record of total functions; fallible RPC calls
return `Except`.  The recursive range-split retrieval is given a fuel
parameter: a result of `none` means the recursion did not finish within
the given fuel (for the always-overflowing single-block range it is
`none` for every fuel, i.e. the code diverges).
-/

namespace SmartContractManager

/-- Maximum number of attempts to create ethereum metadata when the
transaction to add hash and size to Ethereum is confirmed (source line 19). -/
def CREATING_ETHEREUM_METADATA_MAX_ATTEMPTS : Nat := 23

/-- The `returnValues` payload of a `NewHash` event; in the dynamically
typed source either field may be absent (`undefined`), hence `Option`. -/
structure ReturnValues where
  hash : Option String
  feesParameters : Option String
  deriving Repr, DecidableEq

/-- A raw ledger event as returned by `getPastEvents`; `returnValues`
itself may be absent on a malformed event. -/
structure RNEvent where
  blockNumber : Nat
  transactionHash : String
  event : String
  returnValues : Option ReturnValues
  deriving Repr, DecidableEq

/-- A block object as returned by `getBlock`; `number` may be absent
(for example on a pending block). -/
structure BlockObject where
  number : Option Nat
  timestamp : Nat
  deriving Repr, DecidableEq

/-- Result of `EthereumBlocks.getBlockNumbersFromTimestamp`. -/
structure BlockNumbersInterval where
  blockBefore : Nat
  blockAfter : Nat
  deriving Repr, DecidableEq

/-- The errors thrown by the manager, one constructor per distinct
`throw`/`reject` site relevant to the claims. -/
inductive SCMError
  | moreThanXXXResults
  | cannotGetBlockNumber
  | blockHasNoNumber (block : String)
  | incorrectEventError
  | blockConfirmationError
  | blockTimestampError (blockNumber : Nat)
  | toBlockSmallerThanFromBlock (fromBlock toBlock : Nat)
  | contentHashNotIndexed
  | ethereumTransactionError
  | maximumConfirmationReached
  deriving Repr, DecidableEq

/-- A block argument of type `number | string` in the source. -/
inductive BlockRef
  | num (n : Nat)
  | tag (s : String)
  deriving Repr, DecidableEq

/-- The external world as seen by `SmartContractManager`: the full event
log of the `requestHashStorage` contract, the provider's result-count
overflow behaviour for range queries, block lookup by symbolic tag, and
the `EthereumBlocks` helper functions the manager delegates to. -/
structure Provider where
  events : List RNEvent
  tooMany : Nat → Nat → Bool
  getBlock : String → Except String (Option BlockObject)
  getConfirmationNumber : Nat → Except String Nat
  getBlockTimestamp : Nat → Except String Nat
  getBlockNumbersFromTimestamp : Nat → BlockNumbersInterval
  creationBlockNumberHashStorage : Nat
  networkName : String
  hashStorageAddress : String

/-- What a single unlimited `getPastEvents` query over
`[fromBlock, toBlock]` returns: the events of the log whose block number
lies in the range, in log order. -/
def unlimitedGetPastEvents (p : Provider) (fromBlock toBlock : Nat) : List RNEvent :=
  p.events.filter (fun e => decide (fromBlock ≤ e.blockNumber ∧ e.blockNumber ≤ toBlock))

/-- One provider range query: either the events of the range, or the
"query returned more than XXX results" overflow signal. -/
def getPastEvents (p : Provider) (fromBlock toBlock : Nat) : Except SCMError (List RNEvent) :=
  if p.tooMany fromBlock toBlock then .error .moreThanXXXResults
  else .ok (unlimitedGetPastEvents p fromBlock toBlock)

/-- Embedding of `getBlockNumberFromNumberOrString` (source lines 540-563).
A numeric block is returned unchanged; a symbolic tag is resolved via
`getBlock`.  The source tests `!blockObject || !blockObject.number`, so a
missing object, a missing number and (by JS falsiness) the number 0 all
fail with the "has no number" error. -/
def getBlockNumberFromNumberOrString (p : Provider) (block : BlockRef) : Except SCMError Nat :=
  match block with
  | .num n => .ok n
  | .tag s =>
    match p.getBlock s with
    | .error _ => .error .cannotGetBlockNumber
    | .ok none => .error (.blockHasNoNumber s)
    | .ok (some blockObject) =>
      match blockObject.number with
      | none => .error (.blockHasNoNumber s)
      | some 0 => .error (.blockHasNoNumber s)
      | some n => .ok n

/-- Embedding of `recursiveGetPastEvents` (source lines 403-452), indexed
by fuel; `none` means the recursion did not finish within the fuel.  On
the overflow signal the range is split at `(fromBlock + toBlockNumber) / 2`
and the two halves are queried and concatenated first half first; the
source has no single-block base case. -/
def recursiveGetPastEvents (p : Provider) : Nat → Nat → BlockRef → Option (Except SCMError (List RNEvent))
  | 0, _, _ => none
  | fuel + 1, fromBlock, toBlock =>
    match getBlockNumberFromNumberOrString p toBlock with
    | .error e => some (.error e)
    | .ok toBlockNumber =>
      match getPastEvents p fromBlock toBlockNumber with
      | .ok events => some (.ok events)
      | .error .moreThanXXXResults =>
        let intervalHalf := (fromBlock + toBlockNumber) / 2
        match recursiveGetPastEvents p fuel fromBlock (.num intervalHalf),
              recursiveGetPastEvents p fuel (intervalHalf + 1) (.num toBlockNumber) with
        | some (.error e), _ => some (.error e)
        | _, some (.error e) => some (.error e)
        | some (.ok firstHalf), some (.ok secondHalf) => some (.ok (firstHalf ++ secondHalf))
        | _, _ => none
      | .error e => some (.error e)

/-- The metadata record built by `createEthereumMetaData`
(source lines 497-531). -/
structure EthereumMetadata where
  blockConfirmation : Nat
  blockNumber : Nat
  blockTimestamp : Nat
  cost : Option Nat
  fee : Option Nat
  gasFee : Option Nat
  networkName : String
  smartContractAddress : String
  transactionHash : String
  deriving Repr, DecidableEq

/-- Embedding of `createEthereumMetaData`: fetch the confirmation number
and the block timestamp, failing with the corresponding wrapped error. -/
def createEthereumMetaData (p : Provider) (blockNumber : Nat) (transactionHash : String)
    (cost fee gasFee : Option Nat) : Except SCMError EthereumMetadata :=
  match p.getConfirmationNumber blockNumber with
  | .error _ => .error .blockConfirmationError
  | .ok blockConfirmation =>
    match p.getBlockTimestamp blockNumber with
    | .error _ => .error (.blockTimestampError blockNumber)
    | .ok blockTimestamp =>
      .ok { blockConfirmation, blockNumber, blockTimestamp, cost, fee, gasFee,
            networkName := p.networkName,
            smartContractAddress := p.hashStorageAddress,
            transactionHash }

/-- Model of `web3Utils.hexToNumber` for the fee parameter bytes. -/
def hexDigitToNat (c : Char) : Nat :=
  if c.toNat ≥ 48 ∧ c.toNat ≤ 57 then c.toNat - 48
  else if c.toNat ≥ 97 ∧ c.toNat ≤ 102 then c.toNat - 87
  else if c.toNat ≥ 65 ∧ c.toNat ≤ 70 then c.toNat - 55
  else 0

/-- Horner accumulation of hex digits. -/
def hexDigitsToNat : List Char → Nat → Nat
  | [], acc => acc
  | c :: rest, acc => hexDigitsToNat rest (acc * 16 + hexDigitToNat c)

/-- Strip a leading "0x" tag from a hex literal. -/
def stripHexTag : List Char → List Char
  | '0' :: 'x' :: rest => rest
  | l => l

/-- Model of `web3Utils.hexToNumber`. -/
def hexToNumber (s : String) : Nat :=
  hexDigitsToNat (stripHexTag s.data) 0

/-- The `feesParameters` object of a processed entry. -/
structure FeesParameters where
  contentSize : Nat
  deriving Repr, DecidableEq

/-- A processed event: hash, decoded fees parameters, and metadata. -/
structure EthereumEntry where
  hash : String
  feesParameters : FeesParameters
  meta : EthereumMetadata
  deriving Repr, DecidableEq

/-- Embedding of `checkAndAddMetaDataToEvent` (source lines 460-486).
The event is rejected as incorrect exactly when `returnValues`, its
`hash` field or its `feesParameters` field is `undefined`; the source
deliberately tests `typeof x === 'undefined'` rather than falsiness so
that an empty-string hash and a zero size are accepted. -/
def checkAndAddMetaDataToEvent (p : Provider) (event : RNEvent) : Except SCMError EthereumEntry :=
  match event.returnValues with
  | none => .error .incorrectEventError
  | some returnValues =>
    match returnValues.hash, returnValues.feesParameters with
    | some hash, some feesParameters =>
      let contentSize := hexToNumber feesParameters
      match createEthereumMetaData p event.blockNumber event.transactionHash none none none with
      | .error e => .error e
      | .ok meta => .ok { hash, feesParameters := { contentSize }, meta }
    | _, _ => .error .incorrectEventError

/-- Sequentialisation of the `Bluebird.map` enrichment: the whole batch
fails on the first event that fails. -/
def mapCheckAndAddMetaData (p : Provider) : List RNEvent → Except SCMError (List EthereumEntry)
  | [] => .ok []
  | e :: rest =>
    match checkAndAddMetaDataToEvent p e with
    | .error err => .error err
    | .ok entry =>
      match mapCheckAndAddMetaData p rest with
      | .error err => .error err
      | .ok entries => .ok (entry :: entries)

/-- The source computes `toBlock = toBlock || 'latest'`: an absent
toBlock, and by JS falsiness also the number 0 and the empty string,
become the symbolic tag "latest". -/
def jsOrLatest (toBlock : Option BlockRef) : BlockRef :=
  match toBlock with
  | none => .tag "latest"
  | some (.num 0) => .tag "latest"
  | some (.tag "") => .tag "latest"
  | some r => r

/-- Embedding of `getHashesAndSizesFromEvents` (source lines 363-392):
clamp `fromBlock` to the contract creation block, default `toBlock` to
"latest", fetch the raw events, keep the `NewHash` ones, and enrich each
with its metadata. -/
def getHashesAndSizesFromEvents (p : Provider) (fuel : Nat) (fromBlock : Nat)
    (toBlock : Option BlockRef) : Option (Except SCMError (List EthereumEntry)) :=
  let clampedFromBlock :=
    if fromBlock < p.creationBlockNumberHashStorage then p.creationBlockNumberHashStorage
    else fromBlock
  match recursiveGetPastEvents p fuel clampedFromBlock (jsOrLatest toBlock) with
  | none => none
  | some (.error e) => some (.error e)
  | some (.ok events) =>
    some (mapCheckAndAddMetaData p (events.filter (fun e => e.event == "NewHash")))

/-- The `options` argument of `getHashesAndSizesFromEthereum`. -/
structure TimestampBoundaries where
  fromTimestamp : Option Nat
  toTimestamp : Option Nat
  deriving Repr, DecidableEq

/-- Resolution of `fromBlock` in `getHashesAndSizesFromEthereum`
(source lines 328-337).  The source tests `options && options.from`, so
a timestamp of 0 is falsy and is ignored like an absent one. -/
def resolvedFromBlock (p : Provider) (options : Option TimestampBoundaries) : Nat :=
  match options with
  | none => p.creationBlockNumberHashStorage
  | some o =>
    match o.fromTimestamp with
    | none => p.creationBlockNumberHashStorage
    | some t =>
      if t == 0 then p.creationBlockNumberHashStorage
      else (p.getBlockNumbersFromTimestamp t).blockAfter

/-- Resolution of `toBlock` in `getHashesAndSizesFromEthereum`
(source lines 339-345), with the same falsiness on the timestamp 0. -/
def resolvedToBlock (p : Provider) (options : Option TimestampBoundaries) : Option Nat :=
  match options with
  | none => none
  | some o =>
    match o.toTimestamp with
    | none => none
    | some t =>
      if t == 0 then none
      else some (p.getBlockNumbersFromTimestamp t).blockBefore

/-- The guard `if (toBlock && toBlock < fromBlock)` of source line 347:
by JS falsiness a resolved toBlock of 0 does not trigger the guard. -/
def toBlockGuard (toBlock : Option Nat) (fromBlock : Nat) : Bool :=
  match toBlock with
  | none => false
  | some tb => (!(tb == 0)) && decide (tb < fromBlock)

/-- Embedding of `getHashesAndSizesFromEthereum` (source lines 325-354). -/
def getHashesAndSizesFromEthereum (p : Provider) (fuel : Nat)
    (options : Option TimestampBoundaries) : Option (Except SCMError (List EthereumEntry)) :=
  let fromBlock := resolvedFromBlock p options
  let toBlock := resolvedToBlock p options
  if toBlockGuard toBlock fromBlock then
    some (.error (.toBlockSmallerThanFromBlock fromBlock (toBlock.getD 0)))
  else
    getHashesAndSizesFromEvents p fuel fromBlock (toBlock.map BlockRef.num)

/-- The find predicate of `getMetaFromEthereum`
(`element.returnValues.hash === contentHash`); an event with no
`returnValues` does not match. -/
def eventHashMatches (contentHash : String) (e : RNEvent) : Bool :=
  match e.returnValues with
  | some rv => rv.hash == some contentHash
  | none => false

/-- Embedding of `getMetaFromEthereum` (source lines 305-317): read all
events from the creation block to "latest", take the first whose hash
matches, and build its metadata; fail with the "not indexed" error when
no event matches. -/
def getMetaFromEthereum (p : Provider) (fuel : Nat) (contentHash : String) :
    Option (Except SCMError EthereumMetadata) :=
  match recursiveGetPastEvents p fuel p.creationBlockNumberHashStorage (.tag "latest") with
  | none => none
  | some (.error e) => some (.error e)
  | some (.ok events) =>
    match events.find? (eventHashMatches contentHash) with
    | none => some (.error .contentHashNotIndexed)
    | some event =>
      some (createEthereumMetaData p event.blockNumber event.transactionHash none none none)

/-- A transaction receipt as delivered with a confirmation signal. -/
structure TransactionReceipt where
  blockNumber : Nat
  transactionHash : String
  gasUsed : Nat
  deriving Repr, DecidableEq

/-- The asynchronous signals of the `submitHash` transaction lifecycle
(source lines 265-295). -/
inductive TxSignal
  | errorSig (message : String)
  | confirmationSig (confirmationNumber : Nat) (receipt : TransactionReceipt)
  deriving Repr, DecidableEq

/-- The state of the promise returned by `addHashAndSizeToEthereum`;
`resolve` and `reject` on a settled promise are no-ops. -/
inductive PromiseState
  | pending
  | resolvedWith (metadata : EthereumMetadata)
  | rejectedWith (e : SCMError)
  deriving Repr, DecidableEq

/-- JS promise `resolve`: only acts on a pending promise. -/
def PromiseState.resolve (s : PromiseState) (m : EthereumMetadata) : PromiseState :=
  match s with
  | .pending => .resolvedWith m
  | s => s

/-- JS promise `reject`: only acts on a pending promise. -/
def PromiseState.reject (s : PromiseState) (e : SCMError) : PromiseState :=
  match s with
  | .pending => .rejectedWith e
  | s => s

/-- State of the `addHashAndSizeToEthereum` executor: the promise and the
`ethereumMetadataCreated` flag (source line 255). -/
structure SubmitState where
  promiseState : PromiseState
  ethereumMetadataCreated : Bool
  deriving Repr, DecidableEq

/-- Initial state of the executor. -/
def addHashInitialState : SubmitState :=
  { promiseState := .pending, ethereumMetadataCreated := false }

/-- Embedding of the signal handlers of `addHashAndSizeToEthereum`
(source lines 265-295): an `error` signal rejects; a `confirmation`
signal is ignored once the metadata has been created, otherwise it tries
to build the metadata, resolving on success and rejecting with the
"Maximum number of confirmation reached" error when the attempt fails
and the confirmation number has reached the cap. -/
def addHashConfirmationStep (p : Provider) (fee gasPriceToUse : Nat)
    (s : SubmitState) (sig : TxSignal) : SubmitState :=
  match sig with
  | .errorSig _ => { s with promiseState := s.promiseState.reject .ethereumTransactionError }
  | .confirmationSig confirmationNumber receipt =>
    if s.ethereumMetadataCreated then s
    else
      let gasFee := receipt.gasUsed * gasPriceToUse
      let cost := gasFee + fee
      match createEthereumMetaData p receipt.blockNumber receipt.transactionHash
              (some cost) (some fee) (some gasFee) with
      | .ok metadata =>
        { promiseState := s.promiseState.resolve metadata, ethereumMetadataCreated := true }
      | .error _ =>
        if CREATING_ETHEREUM_METADATA_MAX_ATTEMPTS ≤ confirmationNumber then
          { s with promiseState := s.promiseState.reject .maximumConfirmationReached }
        else s

/-- Process a sequence of transaction signals in order. -/
def addHashProcessSignals (p : Provider) (fee gasPriceToUse : Nat)
    (s : SubmitState) (sigs : List TxSignal) : SubmitState :=
  sigs.foldl (addHashConfirmationStep p fee gasPriceToUse) s

/-- Whether a signal is a confirmation signal. -/
def isConfirmationSig : TxSignal → Bool
  | .confirmationSig _ _ => true
  | .errorSig _ => false

/-- Whether a confirmation signal has reached the metadata attempt cap. -/
def capReached : TxSignal → Bool
  | .confirmationSig n _ => decide (CREATING_ETHEREUM_METADATA_MAX_ATTEMPTS ≤ n)
  | .errorSig _ => false

/-- Modelled from the spec: the repository file
`ethereum-storage/src/lib/ethereum-blocks.ts` (class `EthereumBlocks`,
method `getBlockNumbersFromTimestamp`) is not among the available
sources, only its caller is.  Following spec section 4.2, `blockAfter`
is the smallest block in `[creationBlock, headBlock]` whose timestamp is
at least the target, defaulting to the nearest boundary (the head) when
no block qualifies. -/
def blockAfterFromTimestamp (timestampOf : Nat → Nat) (creationBlock headBlock t : Nat) : Nat :=
  (((List.range' creationBlock (headBlock + 1 - creationBlock)).find?
      (fun b => decide (t ≤ timestampOf b))).getD headBlock)

/-- Modelled from the spec: `blockBefore` of
`EthereumBlocks.getBlockNumbersFromTimestamp` is the largest block in
`[creationBlock, headBlock]` whose timestamp is at most the target,
defaulting to the nearest boundary (the creation block) when no block
qualifies. -/
def blockBeforeFromTimestamp (timestampOf : Nat → Nat) (creationBlock headBlock t : Nat) : Nat :=
  ((((List.range' creationBlock (headBlock + 1 - creationBlock)).filter
      (fun b => decide (timestampOf b ≤ t))).getLast?).getD creationBlock)

/-- Modelled from the spec: the full
`EthereumBlocks.getBlockNumbersFromTimestamp` contract of spec
section 4.2. -/
def getBlockNumbersFromTimestampSpec (timestampOf : Nat → Nat) (creationBlock headBlock t : Nat) :
    BlockNumbersInterval :=
  { blockBefore := blockBeforeFromTimestamp timestampOf creationBlock headBlock t,
    blockAfter := blockAfterFromTimestamp timestampOf creationBlock headBlock t }

/-- The block timestamp sequence of spec property 4: blocks 0..9 carry
timestamps 7, 30, 45, 87, 100, 150, 209, 234, 290, 306. -/
def ts10 : Nat → Nat := fun b => [7, 30, 45, 87, 100, 150, 209, 234, 290, 306].getD b 0

end SmartContractManager

namespace SmartContractManager

/-- Splitting an inclusive block range at a midpoint splits the filtered
event list, provided the log is sorted by block number. -/
theorem filter_range_split (l : List RNEvent)
    (hsorted : l.Pairwise (fun a b => a.blockNumber ≤ b.blockNumber))
    (f mid t : Nat) (hfm : f ≤ mid) (hmt : mid < t) :
    l.filter (fun e => decide (f ≤ e.blockNumber ∧ e.blockNumber ≤ mid))
      ++ l.filter (fun e => decide (mid + 1 ≤ e.blockNumber ∧ e.blockNumber ≤ t))
      = l.filter (fun e => decide (f ≤ e.blockNumber ∧ e.blockNumber ≤ t)) := by
  induction l with
  | nil => rfl
  | cons x xs ih =>
    rcases List.pairwise_cons.mp hsorted with ⟨hhead, htail⟩
    have ih' := ih htail
    by_cases h1 : f ≤ x.blockNumber ∧ x.blockNumber ≤ mid
    · have h2 : ¬(mid + 1 ≤ x.blockNumber ∧ x.blockNumber ≤ t) := by omega
      have h3 : f ≤ x.blockNumber ∧ x.blockNumber ≤ t := by omega
      simp only [List.filter_cons, decide_eq_true_eq, if_pos h1, if_neg h2, if_pos h3,
        List.cons_append, List.cons.injEq, true_and]
      exact ih'
    · by_cases h2 : mid + 1 ≤ x.blockNumber ∧ x.blockNumber ≤ t
      · have h3 : f ≤ x.blockNumber ∧ x.blockNumber ≤ t := by omega
        have hnil : xs.filter (fun e => decide (f ≤ e.blockNumber ∧ e.blockNumber ≤ mid)) = [] := by
          refine List.filter_eq_nil_iff.mpr ?_
          intro y hy
          have := hhead y hy
          simp only [decide_eq_true_eq]
          omega
        simp only [List.filter_cons, decide_eq_true_eq, if_neg h1, if_pos h2, if_pos h3]
        rw [show xs.filter (fun e => decide (f ≤ e.blockNumber ∧ e.blockNumber ≤ mid))
              ++ (x :: xs.filter (fun e => decide (mid + 1 ≤ e.blockNumber ∧ e.blockNumber ≤ t)))
            = x :: xs.filter (fun e => decide (mid + 1 ≤ e.blockNumber ∧ e.blockNumber ≤ t)) from by
          rw [hnil]; rfl]
        have hcongr : xs.filter (fun e => decide (mid + 1 ≤ e.blockNumber ∧ e.blockNumber ≤ t))
            = xs.filter (fun e => decide (f ≤ e.blockNumber ∧ e.blockNumber ≤ t)) := by
          refine List.filter_congr ?_
          intro y hy
          have := hhead y hy
          simp only [decide_eq_decide]
          omega
        rw [hcongr]
      · have h3 : ¬(f ≤ x.blockNumber ∧ x.blockNumber ≤ t) := by omega
        simp only [List.filter_cons, decide_eq_true_eq, if_neg h1, if_neg h2, if_neg h3]
        exact ih'

/-- Whenever the target block resolves, no single-block range overflows,
and the log is sorted, the recursive range-split retrieval finishes
within fuel equal to the range size and returns exactly the unlimited
query result. -/
theorem recursiveGetPastEvents_ok (p : Provider)
    (hsingle : ∀ n, p.tooMany n n = false)
    (hsorted : p.events.Pairwise (fun a b => a.blockNumber ≤ b.blockNumber)) :
    ∀ fuel fromBlock toBlockNumber toBlock,
      getBlockNumberFromNumberOrString p toBlock = .ok toBlockNumber →
      fromBlock ≤ toBlockNumber → toBlockNumber - fromBlock < fuel →
      recursiveGetPastEvents p fuel fromBlock toBlock
        = some (.ok (unlimitedGetPastEvents p fromBlock toBlockNumber)) := by
  intro fuel
  induction fuel with
  | zero => intro f t tb hres hft hfuel; omega
  | succ fuel ih =>
    intro f t tb hres hft hfuel
    simp only [recursiveGetPastEvents, hres]
    cases hov : p.tooMany f t with
    | false =>
      simp only [getPastEvents, hov, Bool.false_eq_true, if_false]
    | true =>
      have hlt : f < t := by
        rcases Nat.lt_or_eq_of_le hft with h | h
        · exact h
        · exact absurd (h ▸ hov) (by simp [hsingle])
      have h1 : f ≤ (f + t) / 2 := by omega
      have h2 : (f + t) / 2 < t := by omega
      have e1 := ih f ((f + t) / 2) (.num ((f + t) / 2)) rfl h1 (by omega)
      have e2 := ih ((f + t) / 2 + 1) t (.num t) rfl (by omega) (by omega)
      simp only [getPastEvents, hov, if_true, e1, e2]
      have hsplit := filter_range_split p.events hsorted f ((f + t) / 2) t h1 h2
      simp only [unlimitedGetPastEvents]
      rw [hsplit]

end SmartContractManager

namespace SmartContractManager

/-- The synthetic event set of the repository's tests: `NewHash` events
at blocks 0, 4, 6 and 9, with a duplicate content hash at blocks 0 and 4. -/
def mockEvents : List RNEvent :=
  [ { blockNumber := 0, transactionHash := "0xa", event := "NewHash",
      returnValues := some { hash := some "QmA", feesParameters := some "0x1d" } },
    { blockNumber := 4, transactionHash := "0xb", event := "NewHash",
      returnValues := some { hash := some "QmA", feesParameters := some "0x32" } },
    { blockNumber := 6, transactionHash := "0xc", event := "NewHash",
      returnValues := some { hash := some "other", feesParameters := some "0x186a0" } },
    { blockNumber := 9, transactionHash := "0xd", event := "NewHash",
      returnValues := some { hash := some "other", feesParameters := some "0x186a0" } } ]

/-- A provider over blocks 0..9 that signals a result-count overflow on
every range of more than one block, so that the range split recurses all
the way to single-block leaves. -/
def splittingProvider : Provider :=
  { events := mockEvents,
    tooMany := fun f t => decide (f < t),
    getBlock := fun _ => .ok (some { number := some 9, timestamp := 306 }),
    getConfirmationNumber := fun b => .ok (9 - b),
    getBlockTimestamp := fun b => .ok (ts10 b),
    getBlockNumbersFromTimestamp := fun t => getBlockNumbersFromTimestampSpec ts10 0 9 t,
    creationBlockNumberHashStorage := 0,
    networkName := "private",
    hashStorageAddress := "0x345ca3e014aaf5dca488057592ee47305d9b3e10" }

/-- C1: for every block range and every provider that either answers a
range query with its events (in log order) or signals a result-count
overflow — never overflowing on a single block, so the recursion can
bottom out — the recursive range-split retrieval returns exactly the
ordered event list of a single unlimited query over the range: first
half before second half at each split, nothing lost or duplicated. -/
theorem recursiveGetPastEvents_matches_unlimited_query (p : Provider)
    (fromBlock toBlock fuel : Nat)
    (hsorted : p.events.Pairwise (fun a b => a.blockNumber ≤ b.blockNumber))
    (hsingle : ∀ n, p.tooMany n n = false)
    (hft : fromBlock ≤ toBlock) (hfuel : toBlock - fromBlock < fuel) :
    recursiveGetPastEvents p fuel fromBlock (.num toBlock)
      = some (.ok (unlimitedGetPastEvents p fromBlock toBlock)) :=
  recursiveGetPastEvents_ok p hsingle hsorted fuel fromBlock toBlock (.num toBlock) rfl hft hfuel

/-- Witness for C1: over blocks 0..9 with the synthetic event set, the
provider that overflows on every multi-block range yields, through the
recursive split, exactly the unlimited query result. -/
theorem recursiveGetPastEvents_matches_unlimited_query_witness :
    recursiveGetPastEvents splittingProvider 10 0 (.num 9)
      = some (.ok (unlimitedGetPastEvents splittingProvider 0 9)) :=
  recursiveGetPastEvents_matches_unlimited_query splittingProvider 0 9 10
    (by decide) (fun n => by simp [splittingProvider]) (by decide) (by decide)

/-- A provider whose range queries always signal a result-count
overflow, including on single-block ranges: a single block holding more
events than the provider's cap behaves this way. -/
def overflowAlwaysProvider : Provider :=
  { events := [],
    tooMany := fun _ _ => true,
    getBlock := fun _ => .ok (some { number := some 9, timestamp := 0 }),
    getConfirmationNumber := fun _ => .ok 0,
    getBlockTimestamp := fun _ => .ok 0,
    getBlockNumbersFromTimestamp := fun _ => { blockBefore := 0, blockAfter := 0 },
    creationBlockNumberHashStorage := 0,
    networkName := "private",
    hashStorageAddress := "0x" }

/-- Against the always-overflowing provider the recursion never produces
any outcome, for any numeric range and any amount of fuel: on overflow
of the range `[n, n]` the first recursive call is made with the
identical range `[n, n]` again. -/
theorem overflow_never_returns_aux :
    ∀ fuel fromBlock toBlock,
      recursiveGetPastEvents overflowAlwaysProvider fuel fromBlock (.num toBlock) = none := by
  intro fuel
  induction fuel with
  | zero => intro f t; rfl
  | succ fuel ih =>
    intro f t
    have htm : overflowAlwaysProvider.tooMany f t = true := rfl
    simp only [recursiveGetPastEvents, getBlockNumberFromNumberOrString, getPastEvents,
      htm, if_true, ih]

/-- C2: the source has no single-block base case and no RangeTooLarge
error: a single-block range whose query still signals the result-count
overflow makes `recursiveGetPastEvents` recurse with the identical
range, never yielding any result or error however much fuel it gets. -/
theorem recursiveGetPastEvents_single_block_overflow_never_returns :
    ∀ fuel, recursiveGetPastEvents overflowAlwaysProvider fuel 5 (.num 5) = none :=
  fun fuel => overflow_never_returns_aux fuel 5 5

end SmartContractManager

namespace SmartContractManager

/-- A provider over blocks 0..9 (timestamps `ts10`) whose range queries
never overflow, with the spec-modelled block time index, the synthetic
event set, and metadata lookups that always succeed. -/
def plainProvider : Provider :=
  { events := mockEvents,
    tooMany := fun _ _ => false,
    getBlock := fun _ => .ok (some { number := some 9, timestamp := 306 }),
    getConfirmationNumber := fun b => .ok (9 - b),
    getBlockTimestamp := fun b => .ok (ts10 b),
    getBlockNumbersFromTimestamp := fun t => getBlockNumbersFromTimestampSpec ts10 0 9 t,
    creationBlockNumberHashStorage := 0,
    networkName := "private",
    hashStorageAddress := "0x345ca3e014aaf5dca488057592ee47305d9b3e10" }

/-- Counterexample to C3: a query whose resolved toBlock is 0 and whose
resolved fromBlock is 4 does not fail — the JS-falsy guard
`if (toBlock && toBlock < fromBlock)` is skipped, toBlock 0 is replaced
by "latest", and the query succeeds. -/
theorem toBlock_zero_guard_skipped_cex :
    resolvedToBlock plainProvider (some { fromTimestamp := some 100, toTimestamp := some 8 }) = some 0
    ∧ resolvedFromBlock plainProvider (some { fromTimestamp := some 100, toTimestamp := some 8 }) = 4
    ∧ (getHashesAndSizesFromEthereum plainProvider 2
        (some { fromTimestamp := some 100, toTimestamp := some 8 })).map Except.isOk = some true := by
  refine ⟨rfl, rfl, ?_⟩
  rfl

/-- C3 (amended): the range retrieval fails before any ledger query
exactly when the resolved toBlock is nonzero and strictly below the
resolved fromBlock; the conclusion holds even with zero query fuel, so
no range query is involved in producing the error. -/
theorem toBlock_guard_rejects_nonzero (p : Provider) (fuel : Nat)
    (options : Option TimestampBoundaries) (tb : Nat)
    (htb : resolvedToBlock p options = some tb)
    (hnz : tb ≠ 0)
    (hlt : tb < resolvedFromBlock p options) :
    getHashesAndSizesFromEthereum p fuel options
      = some (.error (.toBlockSmallerThanFromBlock (resolvedFromBlock p options) tb)) := by
  have hguard : toBlockGuard (some tb) (resolvedFromBlock p options) = true := by
    simp only [toBlockGuard, Bool.and_eq_true, Bool.not_eq_eq_eq_not, Bool.not_true,
      beq_eq_false_iff_ne, ne_eq, decide_eq_true_eq]
    exact ⟨hnz, hlt⟩
  simp only [getHashesAndSizesFromEthereum, htb, hguard, if_true, Option.getD_some]

/-- Witness for the amended C3: from-timestamp 299 resolves to block 9,
to-timestamp 100 resolves to block 4, and the query fails with the
boundary error with no fuel at all. -/
theorem toBlock_guard_rejects_nonzero_witness :
    getHashesAndSizesFromEthereum plainProvider 0
        (some { fromTimestamp := some 299, toTimestamp := some 100 })
      = some (.error (.toBlockSmallerThanFromBlock 9 4)) :=
  (toBlock_guard_rejects_nonzero plainProvider 0
    (some { fromTimestamp := some 299, toTimestamp := some 100 }) 4
    (by decide) (by decide) (by decide)).trans rfl

/-- Counterexample to C7: under the spec's own block time index
(smallest block whose timestamp is at least the bound), from-timestamp
10 resolves to block 1 (timestamp 30), not to block 2. -/
theorem resolveBlockRange_from10_cex :
    ¬(resolvedFromBlock plainProvider
        (some { fromTimestamp := some 10, toTimestamp := some 299 }) = 2) := by
  decide

/-- C7 (amended): over the timestamp sequence 7, 30, 45, 87, 100, 150,
209, 234, 290, 306 at blocks 0..9, from-timestamp 299 resolves to block
9, to-timestamp 299 resolves to block 8, and the pair from 10 / to 299
resolves to blocks 1 and 8. -/
theorem resolveBlockRange_concrete_values :
    resolvedFromBlock plainProvider (some { fromTimestamp := some 299, toTimestamp := none }) = 9
    ∧ resolvedToBlock plainProvider (some { fromTimestamp := none, toTimestamp := some 299 }) = some 8
    ∧ resolvedFromBlock plainProvider (some { fromTimestamp := some 10, toTimestamp := some 299 }) = 1
    ∧ resolvedToBlock plainProvider (some { fromTimestamp := some 10, toTimestamp := some 299 }) = some 8 := by
  decide

/-- C9: the block-range event retrieval silently clamps its fromBlock
argument to the contract creation block: the result is exactly that of
the call with the clamped starting block, so blocks from before the
anchor contract existed are never part of the queried range. -/
theorem getHashesAndSizesFromEvents_clamps_fromBlock (p : Provider) (fuel fromBlock : Nat)
    (toBlock : Option BlockRef) :
    getHashesAndSizesFromEvents p fuel fromBlock toBlock
      = getHashesAndSizesFromEvents p fuel (max fromBlock p.creationBlockNumberHashStorage) toBlock := by
  have hclamp : ∀ a c : Nat, (if a < c then c else a) = max a c := by
    intro a c
    rcases Nat.lt_or_ge a c with h | h
    · rw [if_pos h, Nat.max_eq_right (Nat.le_of_lt h)]
    · rw [if_neg (Nat.not_lt.mpr h), Nat.max_eq_left h]
  simp only [getHashesAndSizesFromEvents, hclamp, Nat.max_assoc, Nat.max_self]

end SmartContractManager

namespace SmartContractManager

/-- Building the metadata can fail only with the confirmation-number or
block-timestamp errors, never with the malformed-event error. -/
theorem createEthereumMetaData_ne_incorrect (p : Provider) (b : Nat) (tx : String)
    (c f g : Option Nat) :
    createEthereumMetaData p b tx c f g ≠ .error .incorrectEventError := by
  unfold createEthereumMetaData
  cases p.getConfirmationNumber b with
  | error _ => simp
  | ok conf =>
    cases p.getBlockTimestamp b with
    | error _ => simp
    | ok ts => simp

/-- The event accepted in the second part of C10: an empty-string hash
and a fee parameter decoding to content size 0. -/
def emptyHashZeroSizeEvent : RNEvent :=
  { blockNumber := 3, transactionHash := "0xe", event := "NewHash",
    returnValues := some { hash := some "", feesParameters := some "0x0" } }

/-- C10: the enrichment rejects an event as malformed exactly when its
`returnValues`, its `hash` field or its `feesParameters` field is
absent; an event carrying an empty-string hash and a fee parameter of
size 0 is accepted and enriched normally. -/
theorem checkAndAddMetaDataToEvent_malformed_iff :
    (∀ (p : Provider) (e : RNEvent),
      checkAndAddMetaDataToEvent p e = .error .incorrectEventError
        ↔ (e.returnValues = none
            ∨ ∃ rv, e.returnValues = some rv ∧ (rv.hash = none ∨ rv.feesParameters = none)))
    ∧ checkAndAddMetaDataToEvent plainProvider emptyHashZeroSizeEvent
        = .ok { hash := "", feesParameters := { contentSize := 0 },
                meta := { blockConfirmation := 6, blockNumber := 3, blockTimestamp := 87,
                          cost := none, fee := none, gasFee := none,
                          networkName := "private",
                          smartContractAddress := "0x345ca3e014aaf5dca488057592ee47305d9b3e10",
                          transactionHash := "0xe" } } := by
  constructor
  · intro p e
    cases hrv : e.returnValues with
    | none => simp [checkAndAddMetaDataToEvent, hrv]
    | some rv =>
      cases hh : rv.hash with
      | none => simp [checkAndAddMetaDataToEvent, hrv, hh]
      | some h =>
        cases hfp : rv.feesParameters with
        | none => simp [checkAndAddMetaDataToEvent, hrv, hh, hfp]
        | some fp =>
          simp only [checkAndAddMetaDataToEvent, hrv, hh, hfp]
          constructor
          · intro hcontra
            cases hmc : createEthereumMetaData p e.blockNumber e.transactionHash none none none with
            | error err =>
              rw [hmc] at hcontra
              simp only [Except.error.injEq] at hcontra
              exact absurd (hcontra ▸ hmc) (createEthereumMetaData_ne_incorrect p _ _ _ _ _)
            | ok m =>
              rw [hmc] at hcontra
              simp at hcontra
          · rintro (hcontra | ⟨rv2, hrv2, hbad⟩)
            · simp at hcontra
            · rw [Option.some.injEq] at hrv2
              subst hrv2
              rcases hbad with hbad | hbad
              · rw [hh] at hbad; simp at hbad
              · rw [hfp] at hbad; simp at hbad
  · rfl

end SmartContractManager

namespace SmartContractManager

/-- C8: a numeric toBlock is returned unchanged; a symbolic tag is
resolved by looking up the tagged block, and a lookup failure or a block
without a number is a hard error; a failing tag already aborts the
recursive retrieval before any bisection, whatever the provider's
events. -/
theorem getBlockNumberFromNumberOrString_spec :
    (∀ (p : Provider) (n : Nat), getBlockNumberFromNumberOrString p (.num n) = .ok n)
    ∧ (∀ (p : Provider) (s msg : String), p.getBlock s = .error msg →
        getBlockNumberFromNumberOrString p (.tag s) = .error .cannotGetBlockNumber)
    ∧ (∀ (p : Provider) (s : String), p.getBlock s = .ok none →
        getBlockNumberFromNumberOrString p (.tag s) = .error (.blockHasNoNumber s))
    ∧ (∀ (p : Provider) (s : String) (bo : BlockObject), p.getBlock s = .ok (some bo) →
        bo.number = none →
        getBlockNumberFromNumberOrString p (.tag s) = .error (.blockHasNoNumber s))
    ∧ (∀ (p : Provider) (s : String) (bo : BlockObject) (m : Nat), p.getBlock s = .ok (some bo) →
        bo.number = some m → m ≠ 0 →
        getBlockNumberFromNumberOrString p (.tag s) = .ok m)
    ∧ (∀ (p : Provider) (fuel fromBlock : Nat) (s msg : String), p.getBlock s = .error msg →
        recursiveGetPastEvents p (fuel + 1) fromBlock (.tag s)
          = some (.error .cannotGetBlockNumber)) := by
  refine ⟨?_, ?_, ?_, ?_, ?_, ?_⟩
  · intro p n
    rfl
  · intro p s msg h
    simp only [getBlockNumberFromNumberOrString, h]
  · intro p s h
    simp only [getBlockNumberFromNumberOrString, h]
  · intro p s bo h hn
    simp only [getBlockNumberFromNumberOrString, h, hn]
  · intro p s bo m h hn hm
    cases m with
    | zero => exact absurd rfl hm
    | succ k => simp only [getBlockNumberFromNumberOrString, h, hn]
  · intro p fuel fromBlock s msg h
    simp only [recursiveGetPastEvents, getBlockNumberFromNumberOrString, h]

/-- A provider whose symbolic block lookup fails. -/
def errBlockProvider : Provider :=
  { plainProvider with getBlock := fun _ => .error "connection refused" }

/-- A provider whose symbolic block lookup returns a block carrying no
number, like a pending block. -/
def noNumberProvider : Provider :=
  { plainProvider with getBlock := fun _ => .ok (some { number := none, timestamp := 0 }) }

/-- Witness for C8: each branch of the resolution is exercised on a
concrete provider. -/
theorem getBlockNumberFromNumberOrString_spec_witness :
    getBlockNumberFromNumberOrString plainProvider (.num 7) = .ok 7
    ∧ getBlockNumberFromNumberOrString errBlockProvider (.tag "latest")
        = .error .cannotGetBlockNumber
    ∧ getBlockNumberFromNumberOrString noNumberProvider (.tag "pending")
        = .error (.blockHasNoNumber "pending")
    ∧ getBlockNumberFromNumberOrString plainProvider (.tag "latest") = .ok 9
    ∧ recursiveGetPastEvents errBlockProvider 3 0 (.tag "latest")
        = some (.error .cannotGetBlockNumber) :=
  ⟨getBlockNumberFromNumberOrString_spec.1 plainProvider 7,
   getBlockNumberFromNumberOrString_spec.2.1 errBlockProvider "latest" "connection refused" rfl,
   getBlockNumberFromNumberOrString_spec.2.2.2.1 noNumberProvider "pending"
     { number := none, timestamp := 0 } rfl rfl,
   getBlockNumberFromNumberOrString_spec.2.2.2.2.1 plainProvider "latest"
     { number := some 9, timestamp := 306 } 9 rfl rfl (by decide),
   getBlockNumberFromNumberOrString_spec.2.2.2.2.2 errBlockProvider 2 0 "latest"
     "connection refused" rfl⟩

end SmartContractManager

namespace SmartContractManager

/-- In a list sorted by block number, the first element satisfying a
predicate has the smallest block number among all elements satisfying
it. -/
theorem find?_first_is_min (l : List RNEvent) (q : RNEvent → Bool) (a : RNEvent)
    (hsorted : l.Pairwise (fun x y => x.blockNumber ≤ y.blockNumber))
    (hfind : l.find? q = some a) :
    ∀ b ∈ l, q b = true → a.blockNumber ≤ b.blockNumber := by
  induction l with
  | nil => simp at hfind
  | cons x xs ih =>
    rcases List.pairwise_cons.mp hsorted with ⟨hhead, htail⟩
    rw [List.find?_cons] at hfind
    cases hq : q x with
    | true =>
      rw [hq] at hfind
      simp only [Option.some.injEq] at hfind
      intro b hb hqb
      rcases List.mem_cons.mp hb with rfl | hb2
      · rw [hfind]
      · exact hfind ▸ (hhead b hb2)
    | false =>
      rw [hq] at hfind
      intro b hb hqb
      rcases List.mem_cons.mp hb with rfl | hb2
      · rw [hqb] at hq; simp at hq
      · exact ih htail hfind b hb2 hqb

/-- C6: the metadata lookup scans the whole historical event list from
the creation block to the resolved head and answers with the first
matching event's metadata — the chronologically earliest anchoring when
the hash was anchored more than once — and fails with the "not indexed"
error when no event matches.  The well-formedness hypothesis on
`returnValues` restricts the statement to logs on which the source's
`element.returnValues.hash` access cannot throw. -/
theorem getMetaFromEthereum_returns_earliest_match (p : Provider) (fuel head : Nat)
    (contentHash : String)
    (hsorted : p.events.Pairwise (fun a b => a.blockNumber ≤ b.blockNumber))
    (hsingle : ∀ n, p.tooMany n n = false)
    (_hwf : ∀ e ∈ p.events, e.returnValues ≠ none)
    (hlatest : getBlockNumberFromNumberOrString p (.tag "latest") = .ok head)
    (hcr : p.creationBlockNumberHashStorage ≤ head)
    (hfuel : head - p.creationBlockNumberHashStorage < fuel) :
    getMetaFromEthereum p fuel contentHash
      = some (match (unlimitedGetPastEvents p p.creationBlockNumberHashStorage head).find?
                (eventHashMatches contentHash) with
          | none => .error .contentHashNotIndexed
          | some ev => createEthereumMetaData p ev.blockNumber ev.transactionHash none none none)
    ∧ (∀ ev, (unlimitedGetPastEvents p p.creationBlockNumberHashStorage head).find?
          (eventHashMatches contentHash) = some ev →
        ∀ e ∈ unlimitedGetPastEvents p p.creationBlockNumberHashStorage head,
          eventHashMatches contentHash e = true → ev.blockNumber ≤ e.blockNumber) := by
  have hrec := recursiveGetPastEvents_ok p hsingle hsorted fuel
      p.creationBlockNumberHashStorage head (.tag "latest") hlatest hcr hfuel
  constructor
  · simp only [getMetaFromEthereum, hrec]
    cases hfind : (unlimitedGetPastEvents p p.creationBlockNumberHashStorage head).find?
        (eventHashMatches contentHash) with
    | none => rfl
    | some ev => rfl
  · intro ev hfind e he hq
    have hps : (unlimitedGetPastEvents p p.creationBlockNumberHashStorage head).Pairwise
        (fun x y => x.blockNumber ≤ y.blockNumber) := List.Pairwise.filter _ hsorted
    exact find?_first_is_min _ _ ev hps hfind e he hq

/-- Witness for C6: against the splitting provider with the duplicate
hash at blocks 0 and 4, the lookup returns the block-0 anchoring. -/
theorem getMetaFromEthereum_returns_earliest_match_witness :
    getMetaFromEthereum splittingProvider 12 "QmA"
      = some (.ok { blockConfirmation := 9, blockNumber := 0, blockTimestamp := 7,
                    cost := none, fee := none, gasFee := none,
                    networkName := "private",
                    smartContractAddress := "0x345ca3e014aaf5dca488057592ee47305d9b3e10",
                    transactionHash := "0xa" }) :=
  ((getMetaFromEthereum_returns_earliest_match splittingProvider 12 9 "QmA"
      (by decide) (fun n => by simp [splittingProvider]) (by decide) rfl
      (by decide) (by decide)).1).trans rfl

end SmartContractManager

namespace SmartContractManager

/-- C5: the submit promise settles at most once — a settled promise is
never changed by any later signal or signal sequence — and once the
metadata has been created every later confirmation signal leaves the
executor state exactly unchanged (idempotent resolution, never
reprocessed). -/
theorem addHash_exactly_one_outcome (p : Provider) (fee gasPriceToUse : Nat) :
    (∀ (s : SubmitState) (sig : TxSignal), s.promiseState ≠ .pending →
        (addHashConfirmationStep p fee gasPriceToUse s sig).promiseState = s.promiseState)
    ∧ (∀ (s : SubmitState) (n : Nat) (r : TransactionReceipt),
        s.ethereumMetadataCreated = true →
        addHashConfirmationStep p fee gasPriceToUse s (.confirmationSig n r) = s)
    ∧ (∀ (s : SubmitState) (sigs : List TxSignal), s.promiseState ≠ .pending →
        (addHashProcessSignals p fee gasPriceToUse s sigs).promiseState = s.promiseState) := by
  have hreject : ∀ (st : PromiseState) (e : SCMError), st ≠ .pending → st.reject e = st := by
    intro st e h
    cases st with
    | pending => exact absurd rfl h
    | resolvedWith m => rfl
    | rejectedWith e0 => rfl
  have hresolve : ∀ (st : PromiseState) (m : EthereumMetadata), st ≠ .pending →
      st.resolve m = st := by
    intro st m h
    cases st with
    | pending => exact absurd rfl h
    | resolvedWith m0 => rfl
    | rejectedWith e0 => rfl
  have hstep : ∀ (s : SubmitState) (sig : TxSignal), s.promiseState ≠ .pending →
      (addHashConfirmationStep p fee gasPriceToUse s sig).promiseState = s.promiseState := by
    intro s sig h
    cases sig with
    | errorSig msg => exact hreject _ _ h
    | confirmationSig n r =>
      simp only [addHashConfirmationStep]
      by_cases hc : s.ethereumMetadataCreated
      · rw [if_pos hc]
      · rw [if_neg hc]
        split
        · exact hresolve _ _ h
        · split
          · exact hreject _ _ h
          · rfl
  refine ⟨hstep, ?_, ?_⟩
  · intro s n r h
    simp only [addHashConfirmationStep, h, if_true]
  · intro s sigs
    induction sigs generalizing s with
    | nil => intro h; rfl
    | cons sig rest ih =>
      intro h
      have h1 := hstep s sig h
      have h2 : (addHashConfirmationStep p fee gasPriceToUse s sig).promiseState ≠ .pending := by
        rw [h1]; exact h
      calc (addHashProcessSignals p fee gasPriceToUse s (sig :: rest)).promiseState
          = (addHashProcessSignals p fee gasPriceToUse
              (addHashConfirmationStep p fee gasPriceToUse s sig) rest).promiseState := rfl
        _ = (addHashConfirmationStep p fee gasPriceToUse s sig).promiseState := ih _ h2
        _ = s.promiseState := h1

/-- Witness for C5: a settled (rejected) promise is unchanged by a later
confirmation signal followed by a late error signal. -/
theorem addHash_exactly_one_outcome_witness :
    (addHashProcessSignals plainProvider 100 7
        { promiseState := .rejectedWith .ethereumTransactionError,
          ethereumMetadataCreated := false }
        [.confirmationSig 0 { blockNumber := 3, transactionHash := "0xt", gasUsed := 21000 },
         .errorSig "late"]).promiseState
      = .rejectedWith .ethereumTransactionError :=
  (addHash_exactly_one_outcome plainProvider 100 7).2.2
    { promiseState := .rejectedWith .ethereumTransactionError, ethereumMetadataCreated := false }
    [.confirmationSig 0 { blockNumber := 3, transactionHash := "0xt", gasUsed := 21000 },
     .errorSig "late"]
    (by decide)

end SmartContractManager

namespace SmartContractManager

/-- When the metadata construction always fails, processing any sequence
of confirmation signals from a state already rejected with the cap error
keeps that rejection. -/
theorem addHash_cap_rejection_stable (p : Provider) (fee gasPriceToUse : Nat)
    (hfail : ∀ (b : Nat) (tx : String) (c f g : Option Nat),
        (createEthereumMetaData p b tx c f g).isOk = false) :
    ∀ (sigs : List TxSignal) (s : SubmitState),
      s.ethereumMetadataCreated = false →
      sigs.all isConfirmationSig = true →
      s.promiseState = .rejectedWith .maximumConfirmationReached →
      (addHashProcessSignals p fee gasPriceToUse s sigs).promiseState
        = .rejectedWith .maximumConfirmationReached := by
  intro sigs
  induction sigs with
  | nil => intro s _ _ hrej; exact hrej
  | cons sig rest ih =>
    intro s hcreated hall hrej
    rw [List.all_cons, Bool.and_eq_true] at hall
    cases sig with
    | errorSig msg => simp [isConfirmationSig] at hall
    | confirmationSig n r =>
      have herr : ∃ e, createEthereumMetaData p r.blockNumber r.transactionHash
          (some (r.gasUsed * gasPriceToUse + fee)) (some fee)
          (some (r.gasUsed * gasPriceToUse)) = .error e := by
        cases hmc : createEthereumMetaData p r.blockNumber r.transactionHash
            (some (r.gasUsed * gasPriceToUse + fee)) (some fee)
            (some (r.gasUsed * gasPriceToUse)) with
        | ok m =>
          have hko := hfail r.blockNumber r.transactionHash
            (some (r.gasUsed * gasPriceToUse + fee)) (some fee)
            (some (r.gasUsed * gasPriceToUse))
          rw [hmc] at hko
          simp [Except.isOk, Except.toBool] at hko
        | error e => exact ⟨e, rfl⟩
      rcases herr with ⟨e, hmc⟩
      have hstep : addHashConfirmationStep p fee gasPriceToUse s (.confirmationSig n r)
          = if CREATING_ETHEREUM_METADATA_MAX_ATTEMPTS ≤ n then
              { s with promiseState := s.promiseState.reject .maximumConfirmationReached }
            else s := by
        simp only [addHashConfirmationStep, hcreated, Bool.false_eq_true, if_false, hmc]
      show (addHashProcessSignals p fee gasPriceToUse
          (addHashConfirmationStep p fee gasPriceToUse s (.confirmationSig n r)) rest).promiseState
        = .rejectedWith .maximumConfirmationReached
      rw [hstep]
      by_cases hcap : CREATING_ETHEREUM_METADATA_MAX_ATTEMPTS ≤ n
      · rw [if_pos hcap]
        refine ih _ hcreated hall.2 ?_
        rw [hrej]
        rfl
      · rw [if_neg hcap]
        exact ih s hcreated hall.2 hrej

/-- C4: a submission whose metadata construction fails on every attempt
terminates with the "Maximum number of confirmation reached" rejection
once some confirmation signal carries a confirmation number at or above
the cap of 23 — it does not stay pending. -/
theorem addHash_confirmation_cap_rejects (p : Provider) (fee gasPriceToUse : Nat)
    (sigs : List TxSignal)
    (hfail : ∀ (b : Nat) (tx : String) (c f g : Option Nat),
        (createEthereumMetaData p b tx c f g).isOk = false)
    (hconf : sigs.all isConfirmationSig = true)
    (hcap : sigs.any capReached = true) :
    (addHashProcessSignals p fee gasPriceToUse addHashInitialState sigs).promiseState
      = .rejectedWith .maximumConfirmationReached := by
  have aux : ∀ (l : List TxSignal) (s : SubmitState),
      s.ethereumMetadataCreated = false →
      (s.promiseState = .pending ∨ s.promiseState = .rejectedWith .maximumConfirmationReached) →
      l.all isConfirmationSig = true →
      l.any capReached = true →
      (addHashProcessSignals p fee gasPriceToUse s l).promiseState
        = .rejectedWith .maximumConfirmationReached := by
    intro l
    induction l with
    | nil => intro s _ _ _ hany; simp at hany
    | cons sig rest ih =>
      intro s hcreated hpromise hall hany
      rw [List.all_cons, Bool.and_eq_true] at hall
      rw [List.any_cons, Bool.or_eq_true] at hany
      cases sig with
      | errorSig msg => simp [isConfirmationSig] at hall
      | confirmationSig n r =>
        have herr : ∃ e, createEthereumMetaData p r.blockNumber r.transactionHash
            (some (r.gasUsed * gasPriceToUse + fee)) (some fee)
            (some (r.gasUsed * gasPriceToUse)) = .error e := by
          cases hmc : createEthereumMetaData p r.blockNumber r.transactionHash
              (some (r.gasUsed * gasPriceToUse + fee)) (some fee)
              (some (r.gasUsed * gasPriceToUse)) with
          | ok m =>
            have hko := hfail r.blockNumber r.transactionHash
              (some (r.gasUsed * gasPriceToUse + fee)) (some fee)
              (some (r.gasUsed * gasPriceToUse))
            rw [hmc] at hko
            simp [Except.isOk, Except.toBool] at hko
          | error e => exact ⟨e, rfl⟩
        rcases herr with ⟨e, hmc⟩
        have hstep : addHashConfirmationStep p fee gasPriceToUse s (.confirmationSig n r)
            = if CREATING_ETHEREUM_METADATA_MAX_ATTEMPTS ≤ n then
                { s with promiseState := s.promiseState.reject .maximumConfirmationReached }
              else s := by
          simp only [addHashConfirmationStep, hcreated, Bool.false_eq_true, if_false, hmc]
        show (addHashProcessSignals p fee gasPriceToUse
            (addHashConfirmationStep p fee gasPriceToUse s (.confirmationSig n r)) rest).promiseState
          = .rejectedWith .maximumConfirmationReached
        rw [hstep]
        by_cases hcapn : CREATING_ETHEREUM_METADATA_MAX_ATTEMPTS ≤ n
        · rw [if_pos hcapn]
          have hrej : ({ s with promiseState := s.promiseState.reject .maximumConfirmationReached }
              : SubmitState).promiseState = .rejectedWith .maximumConfirmationReached := by
            rcases hpromise with hp | hp
            · rw [hp]; rfl
            · rw [hp]; rfl
          exact addHash_cap_rejection_stable p fee gasPriceToUse hfail rest _ hcreated hall.2 hrej
        · rw [if_neg hcapn]
          have hany2 : rest.any capReached = true := by
            rcases hany with hbad | hrest
            · exfalso
              simp only [capReached, decide_eq_true_eq] at hbad
              exact hcapn hbad
            · exact hrest
          exact ih s hcreated hpromise hall.2 hany2
  exact aux sigs addHashInitialState rfl (Or.inl rfl) hconf hcap

/-- A provider on which every metadata construction attempt fails: the
confirmation-number lookup always errors. -/
def metadataFailingProvider : Provider :=
  { plainProvider with getConfirmationNumber := fun _ => .error "head unavailable" }

/-- Witness for C4: a failing confirmation below the cap followed by one
at the cap ends in the cap rejection. -/
theorem addHash_confirmation_cap_rejects_witness :
    (addHashProcessSignals metadataFailingProvider 100 7 addHashInitialState
        [.confirmationSig 22 { blockNumber := 3, transactionHash := "0xt", gasUsed := 21000 },
         .confirmationSig 23 { blockNumber := 3, transactionHash := "0xt", gasUsed := 21000 }]).promiseState
      = .rejectedWith .maximumConfirmationReached :=
  addHash_confirmation_cap_rejects metadataFailingProvider 100 7
    [.confirmationSig 22 { blockNumber := 3, transactionHash := "0xt", gasUsed := 21000 },
     .confirmationSig 23 { blockNumber := 3, transactionHash := "0xt", gasUsed := 21000 }]
    (fun b tx c f g => rfl) (by decide) (by decide)

end SmartContractManager
